import Mathlib

/-!
Verification of the authorization ability engine: the CASL-based rule
compiler (`CaslAbilityFactory.createAbility`), the condition template
parser (`parseConditions` in conditions-parser.util.ts), the permission
graph loader (`getUserWithPermissions` in the authorization service),
and the rule-scan evaluator.

The rule compiler, condition parser and graph loader are translated from
the repository sources.  The evaluation semantics (rule matching,
last-match-wins, condition checking) and the template renderer live in
the third-party libraries @casl/ability, @ucast/mongo2js and mustache,
whose code is not part of the repository; those definitions are modelled
from the specification and are marked as such.
-/

namespace AbilityEngine

/-- The Prisma `Action` enum: manage, create, read, update, delete.
`manage` is the wildcard action. -/
inductive Action where
  | manage
  | create
  | read
  | update
  | delete
deriving DecidableEq, Repr

/-- A leaf value inside a condition tree: the JSON scalar kinds that occur
in stored condition templates and in resource attributes. -/
inductive Leaf where
  | str (s : String)
  | num (n : Int)
  | bool (b : Bool)
deriving DecidableEq, Repr

/-- A single field constraint of a condition map: either a plain
field-to-value equality pair, or a field-to-(dollar)ne negated-equality
operator object, the only operator evidenced in the source data. -/
inductive CondOp where
  | eq (v : Leaf)
  | ne (v : Leaf)
deriving DecidableEq, Repr

/-- A condition expression: a map from field names to constraints
(JSON object, represented as an association list in stored order). -/
abbrev Cond := List (String × CondOp)

/-- The Prisma `Permission` model: action, subject type tag, and an
optional condition template (`conditions` is a nullable JSON column). -/
structure Permission where
  action : Action
  subject : String
  conditions : Option Cond
deriving DecidableEq, Repr

/-- The Prisma `RolePermission` join row, as included by the loader:
only the nested `permission` is consumed by the factory. -/
structure RolePermission where
  permission : Permission
deriving DecidableEq, Repr

/-- The Prisma `Role` model with its included permissions. -/
structure Role where
  isActive : Bool
  permissions : List RolePermission
deriving DecidableEq, Repr

/-- The Prisma `UserRole` join row (a role assignment): the nested role
and the assignment expiry used by the filter of the loader. -/
structure UserRole where
  role : Role
  expiresAt : Option Nat
deriving DecidableEq, Repr

/-- The Prisma `UserPermission` join row (a direct claim): the nested
permission, the grant/revoke flag, the optional reason, and the expiry. -/
structure UserPermission where
  permission : Permission
  inverted : Bool
  reason : Option String
  expiresAt : Option Nat
deriving DecidableEq, Repr

/-- The `User` wrapper class of casl-ability.factory.ts together with the
Prisma scalar fields consulted by `getUserWithPermissions` (`isActive`,
`deletedAt`): id, email, role assignments and direct claims. -/
structure User where
  id : Nat
  email : String
  isActive : Bool
  deletedAt : Option Nat
  roles : List UserRole
  directPermissions : List UserPermission
deriving DecidableEq, Repr

/-- Modelled from the spec: the mustache library is not part of the
repository; per spec section 6 the acting-user render context is "a flat
attribute map (at minimum a numeric id)".  The context exposes the
scalar attributes of the user, stringified the way mustache stringifies them. -/
def User.ctx (u : User) : List (String × String) :=
  [("id", toString u.id), ("email", u.email)]

/-- Modelled from the spec: mustache variable lookup. An unknown
placeholder token renders as an empty string rather than failing. -/
def lookupVar (ctx : List (String × String)) (name : String) : String :=
  match ctx.find? (fun p => decide (p.1 = name)) with
  | some p => p.2
  | none => ""

mutual
/-- Modelled from the spec: the scanning core of `Mustache.render`
(the mustache library is not part of the repository).  Copies input
characters until an opening double-brace starts a placeholder tag. -/
def renderChars (ctx : List (String × String)) : List Char → String
  | [] => ""
  | [c] => String.singleton c
  | c :: d :: rest =>
      if c = Char.ofNat 123 ∧ d = Char.ofNat 123 then renderTag ctx rest ""
      else String.singleton c ++ renderChars ctx (d :: rest)

/-- Modelled from the spec: reading a placeholder tag name up to the
closing double-brace; an unclosed tag degrades to literal pass-through. -/
def renderTag (ctx : List (String × String)) : List Char → String → String
  | [], acc => "\x7b\x7b" ++ acc
  | [c], acc => "\x7b\x7b" ++ acc.push c
  | c :: d :: rest, acc =>
      if c = Char.ofNat 125 ∧ d = Char.ofNat 125 then
        lookupVar ctx acc ++ renderChars ctx rest
      else renderTag ctx (d :: rest) (acc.push c)
end

/-- Modelled from the spec: `Mustache.render(value, user)` — the mustache
library is not in the repository.  Substitutes embedded placeholder
tokens with attributes from the render context. -/
def mustacheRender (template : String) (ctx : List (String × String)) : String :=
  renderChars ctx template.toList

/-- The numeric value of an all-digit string, as produced by the
`Number(rendered)` coercion of conditions-parser.util.ts. -/
def digitsToNat (l : List Char) : Nat :=
  l.foldl (fun n c => n * 10 + (c.toNat - Char.toNat (Char.ofNat 48))) 0

/-- The string-leaf transformation of `parseConditions`
(conditions-parser.util.ts): mustache-render the string against the
acting user, then coerce an all-digit result to a number
(the regex test is digits-only and nonempty); non-string leaves pass
through unchanged (the cloneDeepWith customizer returns undefined). -/
def renderLeaf (u : User) : Leaf → Leaf
  | .str s =>
      let rendered := mustacheRender s u.ctx
      if !rendered.toList.isEmpty && rendered.toList.all Char.isDigit then
        .num (digitsToNat rendered.toList : Nat)
      else
        .str rendered
  | v => v

/-- The recursion of lodash cloneDeepWith into a field constraint:
the string leaves on either side of an operator are transformed. -/
def renderOp (u : User) : CondOp → CondOp
  | .eq v => .eq (renderLeaf u v)
  | .ne v => .ne (renderLeaf u v)

/-- Translation of `parseConditions(conditions, user)` from conditions-parser.util.ts:
null/undefined/non-object conditions yield undefined (an unconditional
rule); otherwise the condition tree is deep-cloned with every string
leaf rendered against the user and digit-coerced. -/
def parseConditions (conditions : Option Cond) (u : User) : Option Cond :=
  match conditions with
  | none => none
  | some c => some (c.map (fun p => (p.1, renderOp u p.2)))

/-- A compiled CASL rule as accumulated by the AbilityBuilder:
`can()` pushes a non-inverted rule, `cannot()` an inverted one, and
`.because()` attaches a reason string to the latter. -/
structure Rule where
  action : Action
  subject : String
  conditions : Option Cond
  inverted : Bool
  reason : Option String
deriving DecidableEq, Repr

/-- The rule produced by one `can(action, subject, parseConditions(...))`
call of createAbility (steps 1 and 2 of the factory). -/
def allowRuleOf (u : User) (p : Permission) : Rule :=
  { action := p.action
    subject := p.subject
    conditions := parseConditions p.conditions u
    inverted := false
    reason := none }

/-- The rule produced by one
`cannot(action, subject, parseConditions(...))` and its `.because` call
call of createAbility (step 3 of the factory): the reason attached is
the reason of the claim (`dp.reason ??` empty) with null replaced by the empty string. -/
def denyRuleOf (u : User) (dp : UserPermission) : Rule :=
  { action := dp.permission.action
    subject := dp.permission.subject
    conditions := parseConditions dp.permission.conditions u
    inverted := true
    reason := some (dp.reason.getD "") }

/-- Translation of `CaslAbilityFactory.createAbility(user)` (casl-ability.factory.ts):
guard against a missing user, then sequentially push (1) one allow rule
per permission of each role assignment, (2) one allow rule per
non-inverted direct claim, (3) one deny rule with reason per inverted
direct claim, in exactly that order, and build the ability from the
accumulated rule list. -/
def createAbility (user : Option User) : List Rule :=
  match user with
  | none => []
  | some u =>
      let r1 := u.roles.foldl (fun acc ur =>
        ur.role.permissions.foldl
          (fun acc2 rp => acc2 ++ [allowRuleOf u rp.permission]) acc) []
      let r2 := (u.directPermissions.filter (fun dp => !dp.inverted)).foldl
        (fun acc dp => acc ++ [allowRuleOf u dp.permission]) r1
      let r3 := (u.directPermissions.filter (fun dp => dp.inverted)).foldl
        (fun acc dp => acc ++ [denyRuleOf u dp]) r2
      r3

/-- Section (1) of the rule-order invariant of the spec: the role-derived
allow rules, in graph iteration order. -/
def roleRules (u : User) : List Rule :=
  (u.roles.map (fun ur =>
    ur.role.permissions.map (fun rp => allowRuleOf u rp.permission))).flatten

/-- Section (2) of the rule-order invariant of the spec: the direct-grant
allow rules. -/
def grantRules (u : User) : List Rule :=
  (u.directPermissions.filter (fun dp => !dp.inverted)).map
    (fun dp => allowRuleOf u dp.permission)

/-- Section (3) of the rule-order invariant of the spec: the direct-revoke
deny rules. -/
def revokeRules (u : User) : List Rule :=
  (u.directPermissions.filter (fun dp => dp.inverted)).map
    (fun dp => denyRuleOf u dp)

/-- Translation of `getUserWithPermissions(userId)` (permission/authorization service):
the where clauses of the Prisma query over one stored user record, with the
clock `new Date()` modelled as the parameter `now`.  The user must be
active and not soft-deleted; role assignments are kept only when the
role is active and the assignment is unexpired (expiresAt null or
strictly in the future); direct claims are kept only when unexpired. -/
def getUserWithPermissions (u : User) (now : Nat) : Option User :=
  if u.isActive && u.deletedAt.isNone then
    some { u with
      roles := u.roles.filter (fun ur =>
        ur.role.isActive &&
          (match ur.expiresAt with
           | none => true
           | some t => decide (now < t)))
      directPermissions := u.directPermissions.filter (fun dp =>
        match dp.expiresAt with
        | none => true
        | some t => decide (now < t)) }
  else
    none

/-- A queried subject: either a bare subject-type string (type-only
query) or a wrapper-class instance (Post, User) tagged with its class
name and carrying its attribute values. -/
inductive Subject where
  | type (name : String)
  | inst (className : String) (attrs : List (String × Leaf))
deriving DecidableEq, Repr

/-- The `detectSubjectType` option passed to `build` in createAbility:
`item.constructor.name` — a wrapper instance resolves to its class name,
and a bare string is used as the subject-type literal itself. -/
def detectSubjectType : Subject → String
  | .type n => n
  | .inst n _ => n

/-- Modelled from the spec: attribute lookup on a resource instance
(the @ucast/mongo2js condition evaluator is not in the repository). -/
def attrLookup (attrs : List (String × Leaf)) (f : String) : Option Leaf :=
  (attrs.find? (fun p => decide (p.1 = f))).map (fun p => p.2)

/-- Modelled from the spec: one field constraint against a resource
(spec 4.4): a plain pair requires the attribute to equal the value, a
negated-equality operator requires it to differ. -/
def opMatches (attrs : List (String × Leaf)) (f : String) : CondOp → Bool
  | .eq v => decide (attrLookup attrs f = some v)
  | .ne v => decide (¬ attrLookup attrs f = some v)

/-- Modelled from the spec: AND-of-fields semantics — every field in the
condition map must match (the condition evaluator of @ucast/mongo2js is
not in the repository). -/
def condMatches (c : Cond) (attrs : List (String × Leaf)) : Bool :=
  c.all (fun p => opMatches attrs p.1 p.2)

/-- Modelled from the spec: whether one rule is relevant to a query
(spec 4.4 step 2): the action of the rule equals the queried action or is
the wildcard manage; the subject of the rule equals the resolved query type
or is the wildcard "all"; an absent condition matches unconditionally,
and a present condition matches only a resource instance whose
attributes satisfy it (never a bare type string). -/
def ruleMatches (r : Rule) (a : Action) (s : Subject) : Bool :=
  (decide (r.action = a) || decide (r.action = Action.manage)) &&
  (decide (r.subject = detectSubjectType s) || decide (r.subject = "all")) &&
  (match r.conditions with
   | none => true
   | some c =>
       match s with
       | .type _ => false
       | .inst _ attrs => condMatches c attrs)

/-- Modelled from the spec: the last rule in stored order that matches
the query — the survivor of the overwriting scan of spec 4.4
(the scanning evaluator of @casl/ability is not in the repository). -/
def lastMatch (rules : List Rule) (a : Action) (s : Subject) : Option Rule :=
  (rules.filter (fun r => ruleMatches r a s)).getLast?

/-- Modelled from the spec: `can(action, subject)` — allow exactly when
the last matching rule is non-inverted; deny by default when no rule
matches (the evaluator of @casl/ability is not in the repository). -/
def can (rules : List Rule) (a : Action) (s : Subject) : Bool :=
  match lastMatch rules a s with
  | some r => !r.inverted
  | none => false

/-- Modelled from the spec: `cannot` is the logical negation of `can`. -/
def cannot (rules : List Rule) (a : Action) (s : Subject) : Bool :=
  !(can rules a s)

/-- Modelled from the spec: `reasonFor(action, subject)` returns the
reason of the last matching deny rule, if any (spec 4.4; the rule
lookup of @casl/ability is not in the repository). -/
def reasonFor (rules : List Rule) (a : Action) (s : Subject) : Option String :=
  ((rules.filter (fun r => ruleMatches r a s && r.inverted)).getLast?).bind
    (fun r => r.reason)

/-- The last survivor of a filtering scan is the first match of the
reversed list. -/
theorem getLast?_filter_eq_find?_reverse {α : Type} (p : α → Bool) (l : List α) :
    (l.filter p).getLast? = l.reverse.find? p := by
  induction l using List.reverseRecOn with
  | nil => rfl
  | append_singleton xs x ih =>
      rw [List.filter_append, List.reverse_append]
      by_cases h : p x = true
      · rw [List.filter_cons, if_pos h]
        rw [show (List.filter p [] : List α) = [] from rfl]
        rw [List.getLast?_concat]
        rw [List.reverse_singleton, List.singleton_append,
          List.find?_cons_of_pos _ h]
      · rw [List.filter_cons, if_neg h]
        rw [show (List.filter p [] : List α) = [] from rfl, List.append_nil]
        rw [List.reverse_singleton, List.singleton_append,
          List.find?_cons_of_neg _ h]
        exact ih

/-- A successful find? splits the list at the found element, with no
match strictly before it. -/
theorem find?_eq_some_iff_decomp {α : Type} (p : α → Bool) (l : List α) (b : α) :
    l.find? p = some b ↔
      p b = true ∧ ∃ l₁ l₂, l = l₁ ++ b :: l₂ ∧ ∀ x ∈ l₁, p x = false := by
  induction l with
  | nil => simp
  | cons a t ih =>
      by_cases h : p a = true
      · rw [List.find?_cons_of_pos _ h]
        constructor
        · intro he
          injection he with he
          subst he
          exact ⟨h, [], t, rfl, by intro x hx; cases hx⟩
        · rintro ⟨hb, l₁, l₂, heq, hall⟩
          cases l₁ with
          | nil =>
              rw [List.nil_append] at heq
              injection heq with h1 _
              rw [h1]
          | cons y ys =>
              rw [List.cons_append] at heq
              injection heq with h1 _
              have hy := hall y (by simp)
              rw [← h1, h] at hy
              cases hy
      · rw [List.find?_cons_of_neg _ h]
        rw [ih]
        constructor
        · rintro ⟨hb, l₁, l₂, heq, hall⟩
          refine ⟨hb, a :: l₁, l₂, by rw [heq, List.cons_append], ?_⟩
          intro x hx
          rcases List.mem_cons.mp hx with hx1 | hx2
          · rw [hx1]
            simpa using h
          · exact hall x hx2
        · rintro ⟨hb, l₁, l₂, heq, hall⟩
          cases l₁ with
          | nil =>
              rw [List.nil_append] at heq
              injection heq with h1 _
              rw [← h1] at hb
              exact absurd hb h
          | cons y ys =>
              rw [List.cons_append] at heq
              injection heq with _ h2
              exact ⟨hb, ys, l₂, h2, fun x hx => hall x (List.mem_cons_of_mem _ hx)⟩

/-- The last element surviving a filter splits the list at that element,
with no survivor strictly after it. -/
theorem getLast?_filter_eq_some_iff {α : Type} (p : α → Bool) (l : List α) (b : α) :
    (l.filter p).getLast? = some b ↔
      p b = true ∧ ∃ l₁ l₂, l = l₁ ++ b :: l₂ ∧ ∀ x ∈ l₂, p x = false := by
  rw [getLast?_filter_eq_find?_reverse, find?_eq_some_iff_decomp]
  constructor
  · rintro ⟨hb, l₁, l₂, heq, hall⟩
    refine ⟨hb, l₂.reverse, l₁.reverse, ?_, ?_⟩
    · have h2 := congrArg List.reverse heq
      rw [List.reverse_reverse] at h2
      rw [h2]
      simp [List.reverse_append, List.append_assoc]
    · intro x hx
      exact hall x (List.mem_reverse.mp hx)
  · rintro ⟨hb, l₁, l₂, heq, hall⟩
    refine ⟨hb, l₂.reverse, l₁.reverse, ?_, ?_⟩
    · rw [heq]
      simp [List.reverse_append, List.append_assoc]
    · intro x hx
      exact hall x (List.mem_reverse.mp hx)

/-- Allow holds under `can` exactly when the last matching rule of the query, in
stored order, is a non-inverted rule. -/
theorem can_eq_true_iff (rules : List Rule) (a : Action) (s : Subject) :
    can rules a s = true ↔
      ∃ l₁ r l₂, rules = l₁ ++ r :: l₂ ∧ ruleMatches r a s = true ∧
        r.inverted = false ∧ ∀ x ∈ l₂, ruleMatches x a s = false := by
  constructor
  · intro h
    unfold can lastMatch at h
    cases hl : (rules.filter (fun r => ruleMatches r a s)).getLast? with
    | none => rw [hl] at h; cases h
    | some r0 =>
        rw [hl] at h
        obtain ⟨hm0, l₁, l₂, heq0, hall0⟩ := (getLast?_filter_eq_some_iff _ _ _).mp hl
        refine ⟨l₁, r0, l₂, heq0, hm0, ?_, hall0⟩
        simpa using h
  · rintro ⟨l₁, r, l₂, heq, hm, hinv, hall⟩
    have hlast : (rules.filter (fun x => ruleMatches x a s)).getLast? = some r :=
      (getLast?_filter_eq_some_iff _ _ _).mpr ⟨hm, l₁, l₂, heq, hall⟩
    unfold can lastMatch
    rw [hlast]
    rw [show (match some r with
      | some r => !r.inverted
      | none => false) = !r.inverted from rfl]
    rw [hinv]
    rfl

/-- If nothing matches a query, the decision is deny by default. -/
theorem can_eq_false_of_no_match (rules : List Rule) (a : Action) (s : Subject)
    (h : ∀ r ∈ rules, ruleMatches r a s = false) :
    can rules a s = false := by
  unfold can lastMatch
  have hf : rules.filter (fun r => ruleMatches r a s) = [] := by
    rw [List.filter_eq_nil_iff]
    intro r hr
    rw [h r hr]
    simp
  rw [hf]
  rfl

/-- A builder fold that pushes one element per input appends the mapped
inputs to the accumulator. -/
theorem foldl_push_eq_append_map {α β : Type} (f : α → β) (l : List α)
    (init : List β) :
    l.foldl (fun acc x => acc ++ [f x]) init = init ++ l.map f := by
  induction l generalizing init with
  | nil => simp
  | cons a t ih =>
      rw [List.foldl_cons, ih]
      simp [List.append_assoc]

/-- The nested role/permission builder fold appends the flattened
role-derived rules to the accumulator. -/
theorem foldl_roles_eq (u : User) (l : List UserRole) (init : List Rule) :
    l.foldl (fun acc ur => ur.role.permissions.foldl
      (fun acc2 rp => acc2 ++ [allowRuleOf u rp.permission]) acc) init
    = init ++ (l.map (fun ur =>
        ur.role.permissions.map (fun rp => allowRuleOf u rp.permission))).flatten := by
  induction l generalizing init with
  | nil => simp
  | cons ur t ih =>
      rw [List.foldl_cons, foldl_push_eq_append_map, ih]
      simp [List.append_assoc]

/-- The sequential builder of createAbility produces exactly the
role-derived allow rules, then the direct-grant allow rules, then the
direct-revoke deny rules. -/
theorem createAbility_some_eq_sections (u : User) :
    createAbility (some u) = roleRules u ++ grantRules u ++ revokeRules u := by
  have h : createAbility (some u) =
      ((u.directPermissions.filter (fun dp => dp.inverted)).foldl
        (fun acc dp => acc ++ [denyRuleOf u dp])
        ((u.directPermissions.filter (fun dp => !dp.inverted)).foldl
          (fun acc dp => acc ++ [allowRuleOf u dp.permission])
          (u.roles.foldl (fun acc ur => ur.role.permissions.foldl
            (fun acc2 rp => acc2 ++ [allowRuleOf u rp.permission]) acc) []))) := rfl
  rw [h, foldl_push_eq_append_map, foldl_push_eq_append_map, foldl_roles_eq]
  unfold roleRules grantRules revokeRules
  simp [List.append_assoc]

/-- Pushing onto the accumulator commutes with consing onto the pending
name characters. -/
theorem push_append_mk (acc : String) (c : Char) (cs : List Char) :
    acc.push c ++ String.mk cs = acc ++ String.mk (c :: cs) := by
  cases acc with
  | mk d =>
      show String.mk ((d ++ [c]) ++ cs) = String.mk (d ++ (c :: cs))
      rw [List.append_assoc]
      rfl

/-- Unfolding equation of renderChars on a two-character lookahead. -/
theorem renderChars_cons2 (ctx : List (String × String)) (c d : Char)
    (rest : List Char) :
    renderChars ctx (c :: d :: rest)
      = if c = Char.ofNat 123 ∧ d = Char.ofNat 123 then renderTag ctx rest ""
        else String.singleton c ++ renderChars ctx (d :: rest) := rfl

/-- Unfolding equation of renderTag on the empty remainder. -/
theorem renderTag_nil (ctx : List (String × String)) (acc : String) :
    renderTag ctx [] acc = "\x7b\x7b" ++ acc := rfl

/-- Unfolding equation of renderTag on a single remaining character. -/
theorem renderTag_one (ctx : List (String × String)) (c : Char) (acc : String) :
    renderTag ctx [c] acc = "\x7b\x7b" ++ acc.push c := rfl

/-- Unfolding equation of renderTag on a two-character lookahead. -/
theorem renderTag_cons2 (ctx : List (String × String)) (c d : Char)
    (rest : List Char) (acc : String) :
    renderTag ctx (c :: d :: rest) acc
      = if c = Char.ofNat 125 ∧ d = Char.ofNat 125 then
          lookupVar ctx acc ++ renderChars ctx rest
        else renderTag ctx (d :: rest) (acc.push c) := rfl

/-- A tag whose name contains no closing brace, followed by a closing
double-brace, renders as the context lookup of the accumulated name. -/
theorem renderTag_closes (ctx : List (String × String)) (name : List Char)
    (rest : List Char) :
    ∀ acc : String, Char.ofNat 125 ∉ name →
      renderTag ctx (name ++ Char.ofNat 125 :: Char.ofNat 125 :: rest) acc
        = lookupVar ctx (acc ++ String.mk name) ++ renderChars ctx rest := by
  induction name with
  | nil =>
      intro acc _
      rw [List.nil_append, renderTag_cons2, if_pos ⟨rfl, rfl⟩]
      rw [show String.mk [] = "" from rfl, String.append_empty]
  | cons c cs ih =>
      intro acc h
      have hc : ¬ c = Char.ofNat 125 :=
        fun hcc => h (by rw [hcc]; exact List.mem_cons_self _ _)
      have hcs : Char.ofNat 125 ∉ cs := fun hx => h (List.mem_cons_of_mem _ hx)
      have hstep := ih (acc.push c) hcs
      rw [push_append_mk] at hstep
      rw [List.cons_append]
      cases cs with
      | nil =>
          rw [List.nil_append] at hstep
          rw [List.nil_append, renderTag_cons2, if_neg (fun hh => hc hh.1)]
          exact hstep
      | cons d ds =>
          rw [List.cons_append] at hstep ⊢
          rw [renderTag_cons2, if_neg (fun hh => hc hh.1)]
          exact hstep

/-- An unclosed tag degrades to literal pass-through of the raw text. -/
theorem renderTag_unclosed (ctx : List (String × String)) (l : List Char) :
    ∀ acc : String, Char.ofNat 125 ∉ l →
      renderTag ctx l acc = "\x7b\x7b" ++ acc ++ String.mk l := by
  induction l with
  | nil =>
      intro acc _
      rw [renderTag_nil]
      rw [show String.mk ([] : List Char) = "" from rfl, String.append_assoc,
        String.append_empty]
  | cons c cs ih =>
      intro acc h
      have hc : ¬ c = Char.ofNat 125 :=
        fun hcc => h (by rw [hcc]; exact List.mem_cons_self _ _)
      have hcs : Char.ofNat 125 ∉ cs := fun hx => h (List.mem_cons_of_mem _ hx)
      have hstep := ih (acc.push c) hcs
      cases cs with
      | nil =>
          rw [renderTag_one, String.append_assoc]
          congr 1
      | cons d ds =>
          rw [renderTag_cons2, if_neg (fun hh => hc hh.1)]
          rw [hstep, String.append_assoc, push_append_mk, ← String.append_assoc]

/-- A template starting with an opening double-brace enters tag
scanning on the remainder. -/
theorem renderChars_open (ctx : List (String × String)) (rest : List Char) :
    renderChars ctx (Char.ofNat 123 :: Char.ofNat 123 :: rest)
      = renderTag ctx rest "" := by
  rw [renderChars_cons2, if_pos ⟨rfl, rfl⟩]

/-- Looking up a name absent from the context renders empty. -/
theorem lookupVar_not_found (ctx : List (String × String)) (name : String)
    (h : ∀ p ∈ ctx, ¬ p.1 = name) :
    lookupVar ctx name = "" := by
  unfold lookupVar
  rw [List.find?_eq_none.mpr (fun p hp => by simpa using h p hp)]

/-- Every rule of the revoke section is inverted. -/
theorem revokeRules_inverted (u : User) :
    ∀ r ∈ revokeRules u, r.inverted = true := by
  intro r hr
  obtain ⟨dp, _, hdp⟩ := List.mem_map.mp hr
  rw [← hdp]
  rfl

/-- Reasons: `reasonFor` yields a message exactly when the last matching
deny rule, in stored order, carries that reason. -/
theorem reasonFor_eq_some_iff (rules : List Rule) (a : Action) (s : Subject)
    (msg : String) :
    reasonFor rules a s = some msg ↔
      ∃ l₁ r l₂, rules = l₁ ++ r :: l₂ ∧ (ruleMatches r a s && r.inverted) = true ∧
        r.reason = some msg ∧
        ∀ x ∈ l₂, (ruleMatches x a s && x.inverted) = false := by
  unfold reasonFor
  cases hl : (rules.filter (fun r => ruleMatches r a s && r.inverted)).getLast? with
  | none =>
      constructor
      · intro h
        exact Option.noConfusion h
      · rintro ⟨l₁, r, l₂, heq, hm, _, hall⟩
        have h2 : (rules.filter (fun x => ruleMatches x a s && x.inverted)).getLast?
            = some r :=
          (getLast?_filter_eq_some_iff _ _ _).mpr ⟨hm, l₁, l₂, heq, hall⟩
        rw [hl] at h2
        cases h2
  | some r0 =>
      obtain ⟨hm0, m₁, m₂, heq0, hall0⟩ := (getLast?_filter_eq_some_iff _ _ _).mp hl
      constructor
      · intro h
        exact ⟨m₁, r0, m₂, heq0, hm0, h, hall0⟩
      · rintro ⟨l₁, r, l₂, heq, hm, hre, hall⟩
        have h2 : (rules.filter (fun x => ruleMatches x a s && x.inverted)).getLast?
            = some r :=
          (getLast?_filter_eq_some_iff _ _ _).mpr ⟨hm, l₁, l₂, heq, hall⟩
        rw [hl] at h2
        injection h2 with h2
        show r0.reason = some msg
        rw [h2, hre]

/-- The unconditional delete-Post permission used by the revoke
scenario of spec section 8. -/
def deletePostPerm : Permission :=
  { action := Action.delete, subject := "Post", conditions := none }

/-- Scenario user of spec section 8: a role granting delete on Post
unconditionally, plus an unconditional direct revoke of delete on Post
with reason "sanctioned". -/
def sanctionedUser : User :=
  { id := 1
    email := "sanctioned@example.com"
    isActive := true
    deletedAt := none
    roles := [{ role := { isActive := true
                          permissions := [{ permission := deletePostPerm }] }
                expiresAt := none }]
    directPermissions := [{ permission := deletePostPerm
                            inverted := true
                            reason := some "sanctioned"
                            expiresAt := none }] }

/-- Claim C1: for every compiled ability and every (action, subject)
query, can is true exactly when the last rule in stored order that
matches the query is an allow rule (the scan never short-circuits: every
later matching rule would have overwritten the decision); if no rule
matches, the decision is deny-by-default; and an ability compiled from a
graph with no role assignments and no direct claims denies every query. -/
theorem can_is_last_match_allow (u : Option User) (a : Action) (s : Subject) :
    (can (createAbility u) a s = true ↔
      ∃ l₁ r l₂, createAbility u = l₁ ++ r :: l₂ ∧ ruleMatches r a s = true ∧
        r.inverted = false ∧ ∀ x ∈ l₂, ruleMatches x a s = false)
    ∧ ((∀ r ∈ createAbility u, ruleMatches r a s = false) →
        can (createAbility u) a s = false)
    ∧ (∀ v : User, v.roles = [] → v.directPermissions = [] →
        can (createAbility (some v)) a s = false) := by
  refine ⟨can_eq_true_iff _ a s, can_eq_false_of_no_match _ a s, ?_⟩
  intro v hr hd
  apply can_eq_false_of_no_match
  intro r hrr
  rw [createAbility_some_eq_sections] at hrr
  unfold roleRules grantRules revokeRules at hrr
  rw [hr, hd] at hrr
  simp at hrr

/-- A user record with no role assignments and no direct claims. -/
def emptyGraphUser : User :=
  { id := 9
    email := "w"
    isActive := true
    deletedAt := none
    roles := []
    directPermissions := [] }

/-- Concrete instantiation of the C1 theorem on an empty graph. -/
theorem can_is_last_match_allow_witness :
    can (createAbility (some emptyGraphUser))
      Action.read (Subject.type "Post") = false :=
  (can_is_last_match_allow (some emptyGraphUser)
    Action.read (Subject.type "Post")).2.2 emptyGraphUser rfl rfl

/-- Claim C2: the compiled rule list is exactly the role-derived allow
rules, then the direct-grant allow rules, then the direct-revoke deny
rules, in that order; consequently, when a role grants (A, T)
unconditionally and an unconditional direct revoke for (A, T) exists,
can(A, s) is false for every subject resolving to type T, regardless of
any other rules present. -/
theorem rule_order_and_revoke_wins (u : User) (A : Action) (T : String)
    (_hrole : ∃ ur ∈ u.roles, ∃ rp ∈ ur.role.permissions,
        rp.permission = { action := A, subject := T, conditions := none })
    (hrev : ∃ dp ∈ u.directPermissions, dp.inverted = true ∧
        dp.permission = { action := A, subject := T, conditions := none }) :
    createAbility (some u) = roleRules u ++ grantRules u ++ revokeRules u
    ∧ ∀ s : Subject, detectSubjectType s = T →
        can (createAbility (some u)) A s = false := by
  refine ⟨createAbility_some_eq_sections u, ?_⟩
  intro s hs
  obtain ⟨dp, hdp, hinv, hperm⟩ := hrev
  have hrule : denyRuleOf u dp ∈ revokeRules u := by
    unfold revokeRules
    exact List.mem_map.mpr ⟨dp, List.mem_filter.mpr ⟨hdp, by rw [hinv]⟩, rfl⟩
  have hmatch : ruleMatches (denyRuleOf u dp) A s = true := by
    unfold ruleMatches denyRuleOf
    rw [hperm]
    simp [hs, parseConditions]
  rw [createAbility_some_eq_sections]
  unfold can lastMatch
  rw [List.filter_append]
  have hne : (revokeRules u).filter (fun r => ruleMatches r A s) ≠ [] :=
    List.ne_nil_of_mem (List.mem_filter.mpr ⟨hrule, hmatch⟩)
  rw [List.getLast?_append_of_ne_nil _ hne]
  cases hlast : ((revokeRules u).filter (fun r => ruleMatches r A s)).getLast? with
  | none => exact absurd (List.getLast?_eq_none_iff.mp hlast) hne
  | some r =>
      obtain ⟨_, l₁, l₂, heq, _⟩ := (getLast?_filter_eq_some_iff _ _ _).mp hlast
      have hrmem : r ∈ revokeRules u := by rw [heq]; simp
      have hri := revokeRules_inverted u r hrmem
      show (!r.inverted) = false
      rw [hri]
      rfl

/-- Concrete instantiation of the C2 theorem on the sanctioned user. -/
theorem rule_order_and_revoke_wins_witness :
    can (createAbility (some sanctionedUser)) Action.delete
      (Subject.type "Post") = false :=
  (rule_order_and_revoke_wins sanctionedUser Action.delete "Post"
    ⟨{ role := { isActive := true,
                 permissions := [{ permission := deletePostPerm }] },
       expiresAt := none }, by decide,
     { permission := deletePostPerm }, by decide, by decide⟩
    ⟨{ permission := deletePostPerm, inverted := true,
       reason := some "sanctioned", expiresAt := none }, by decide,
     by decide, by decide⟩).2 (Subject.type "Post") rfl

/-- Claim C3: a rule carrying a condition never matches a type-only
query (it is skipped, not treated as an override), and an ability whose
rules relevant to (a, T) all carry conditions denies the bare-type
query can(a, "T"). -/
theorem conditional_rules_skip_type_queries (rules : List Rule) (a : Action)
    (T : String)
    (h : ∀ r ∈ rules,
        (r.action = a ∨ r.action = Action.manage) →
        (r.subject = T ∨ r.subject = "all") →
        ¬ r.conditions = none) :
    (∀ (r : Rule) (c : Cond), r.conditions = some c →
        ruleMatches r a (Subject.type T) = false)
    ∧ can rules a (Subject.type T) = false := by
  constructor
  · intro r c hc
    unfold ruleMatches
    rw [hc]
    simp
  · apply can_eq_false_of_no_match
    intro r hr
    cases hcond : r.conditions with
    | some c =>
        unfold ruleMatches
        rw [hcond]
        simp
    | none =>
        rw [Bool.eq_false_iff]
        intro hE
        unfold ruleMatches at hE
        rw [hcond] at hE
        simp only [Bool.and_true, Bool.and_eq_true, Bool.or_eq_true,
          decide_eq_true_iff, detectSubjectType] at hE
        exact h r hr hE.1 hE.2 hcond

/-- The conditional read-Post rule used to instantiate the C3 theorem. -/
def condReadPost : Rule :=
  { action := Action.read, subject := "Post"
    conditions := some [("authorId", CondOp.eq (Leaf.num 7))]
    inverted := false, reason := none }

/-- Concrete instantiation of the C3 theorem: the only grant for
(read, Post) is conditional, so the type-only query is denied. -/
theorem conditional_rules_skip_type_queries_witness :
    can [condReadPost] Action.read (Subject.type "Post") = false :=
  (conditional_rules_skip_type_queries [condReadPost] Action.read "Post"
    (by decide)).2

/-- Claim C4: the graph loader never yields an inactive or expired role
assignment; consequently, for a user all of whose role assignments are
expired or inactive and who has no direct claims, the
loaded-and-compiled ability denies every query, even though the roles
themselves still grant their permissions generically. -/
theorem expired_roles_contribute_nothing (u : User) (now : Nat) :
    (∀ v : User, getUserWithPermissions u now = some v →
        ∀ ur ∈ v.roles, ur.role.isActive = true ∧
          (ur.expiresAt = none ∨ ∃ t, ur.expiresAt = some t ∧ now < t))
    ∧ ((∀ ur ∈ u.roles, ur.role.isActive = false ∨
          ∃ t, ur.expiresAt = some t ∧ t ≤ now) →
        u.directPermissions = [] →
        ∀ (a : Action) (s : Subject),
          can (createAbility (getUserWithPermissions u now)) a s = false) := by
  constructor
  · intro v hv ur hur
    unfold getUserWithPermissions at hv
    by_cases hact : (u.isActive && u.deletedAt.isNone) = true
    · rw [if_pos hact] at hv
      injection hv with hv
      rw [← hv] at hur
      obtain ⟨_, hq⟩ := List.mem_filter.mp hur
      rw [Bool.and_eq_true] at hq
      refine ⟨hq.1, ?_⟩
      cases he : ur.expiresAt with
      | none => exact Or.inl rfl
      | some t =>
          rw [he] at hq
          exact Or.inr ⟨t, rfl, by simpa using hq.2⟩
    · rw [if_neg hact] at hv
      cases hv
  · intro h1 h2 a s
    unfold getUserWithPermissions
    by_cases hact : (u.isActive && u.deletedAt.isNone) = true
    · rw [if_pos hact]
      have hroles : u.roles.filter (fun ur =>
          ur.role.isActive &&
            (match ur.expiresAt with
             | none => true
             | some t => decide (now < t))) = [] := by
        rw [List.filter_eq_nil_iff]
        intro ur hur
        rcases h1 ur hur with hia | ⟨t, ht, hle⟩
        · rw [hia]
          simp
        · rw [ht]
          have hd : decide (now < t) = false := decide_eq_false (by omega)
          simp [hd]
      rw [hroles, h2, List.filter_nil]
      exact rfl
    · rw [if_neg hact]
      exact rfl

/-- A user record whose only role assignment expired at time 5, while
the role itself still grants read on Post. -/
def expiredRoleUser : User :=
  { id := 3
    email := "x"
    isActive := true
    deletedAt := none
    roles := [{ role := { isActive := true,
                          permissions := [{ permission :=
                            { action := Action.read, subject := "Post",
                              conditions := none } }] },
                expiresAt := some 5 }]
    directPermissions := [] }

/-- Concrete instantiation of the C4 theorem at time 100: the expired
assignment contributes nothing, so the query is denied. -/
theorem expired_roles_contribute_nothing_witness :
    can (createAbility (getUserWithPermissions expiredRoleUser 100))
      Action.read (Subject.type "Post") = false :=
  (expired_roles_contribute_nothing expiredRoleUser 100).2
    (by
      intro ur hur
      simp only [expiredRoleUser, List.mem_singleton] at hur
      subst hur
      exact Or.inr ⟨5, rfl, by omega⟩)
    rfl Action.read (Subject.type "Post")

/-- Claim C5: condition rendering never fails: a null stored condition
compiles to an unconditional rule rather than an error, an unknown
placeholder token renders as the empty string, and a malformed
(unclosed) tag degrades to literal pass-through. -/
theorem render_graceful (u : User) (ctx : List (String × String))
    (name s : String)
    (hname : Char.ofNat 125 ∉ name.toList)
    (hunknown : ∀ p ∈ ctx, ¬ p.1 = name)
    (hs : Char.ofNat 125 ∉ s.toList) :
    parseConditions none u = none
    ∧ mustacheRender ("\x7b\x7b" ++ name ++ "\x7d\x7d") ctx = ""
    ∧ mustacheRender ("\x7b\x7b" ++ s) ctx = "\x7b\x7b" ++ s := by
  refine ⟨rfl, ?_, ?_⟩
  · unfold mustacheRender
    have htl : ("\x7b\x7b" ++ name ++ "\x7d\x7d").toList
        = Char.ofNat 123 :: Char.ofNat 123 ::
          (name.toList ++ Char.ofNat 125 :: Char.ofNat 125 :: []) := by
      show ("\x7b\x7b" ++ name ++ "\x7d\x7d").data = _
      rw [String.data_append, String.data_append]
      rw [show ("\x7b\x7b" : String).data = [Char.ofNat 123, Char.ofNat 123] from rfl]
      rw [show ("\x7d\x7d" : String).data = [Char.ofNat 125, Char.ofNat 125] from rfl]
      rw [List.append_assoc]
      rfl
    rw [htl, renderChars_open, renderTag_closes ctx name.toList _ "" hname]
    rw [String.empty_append]
    rw [show String.mk name.toList = name from rfl]
    rw [lookupVar_not_found ctx name hunknown]
    rfl
  · unfold mustacheRender
    have htl : ("\x7b\x7b" ++ s).toList
        = Char.ofNat 123 :: Char.ofNat 123 :: s.toList := by
      show ("\x7b\x7b" ++ s).data = _
      rw [String.data_append]
      rfl
    rw [htl, renderChars_open, renderTag_unclosed ctx s.toList "" hs]
    rw [String.append_empty]
    rw [show String.mk s.toList = s from rfl]

/-- Concrete instantiation of the C5 theorem: an unknown token renders
empty and an unclosed tag passes through literally. -/
theorem render_graceful_witness :
    parseConditions none emptyGraphUser = none
    ∧ mustacheRender "\x7b\x7bnope\x7d\x7d" [("id", "7")] = ""
    ∧ mustacheRender "\x7b\x7boops" [("id", "7")] = "\x7b\x7boops" :=
  render_graceful emptyGraphUser [("id", "7")] "nope" "oops"
    (by decide) (by decide) (by decide)

/-- Unfolding equation of renderLeaf on a string leaf. -/
theorem renderLeaf_str (u : User) (s : String) :
    renderLeaf u (.str s)
      = if (!(mustacheRender s u.ctx).toList.isEmpty) &&
            (mustacheRender s u.ctx).toList.all Char.isDigit then
          .num (digitsToNat (mustacheRender s u.ctx).toList)
        else .str (mustacheRender s u.ctx) := rfl

/-- Claim C6: after substitution, a nonempty all-digit render is
coerced to a number, other renders stay strings, and rendering the
user-id placeholder against a user whose id is 7 yields the number 7,
not the string of it. -/
theorem digit_renders_coerce (u : User) (s : String) :
    (((!(mustacheRender s u.ctx).toList.isEmpty) &&
        (mustacheRender s u.ctx).toList.all Char.isDigit) = true →
      renderLeaf u (.str s) = .num (digitsToNat (mustacheRender s u.ctx).toList))
    ∧ (((!(mustacheRender s u.ctx).toList.isEmpty) &&
        (mustacheRender s u.ctx).toList.all Char.isDigit) = false →
      renderLeaf u (.str s) = .str (mustacheRender s u.ctx))
    ∧ (u.id = 7 → renderLeaf u (.str "\x7b\x7bid\x7d\x7d") = .num 7) := by
  refine ⟨?_, ?_, ?_⟩
  · intro h
    rw [renderLeaf_str, if_pos h]
  · intro h
    rw [renderLeaf_str, if_neg (by rw [h]; exact Bool.false_ne_true)]
  · intro h7
    have hctx7 : u.ctx = [("id", "7"), ("email", u.email)] := by
      unfold User.ctx
      rw [h7, show toString (7 : Nat) = "7" from rfl]
    rw [renderLeaf_str, hctx7]
    rfl

/-- A user record with id 7, used to instantiate the C6 theorem. -/
def demoUser7 : User :=
  { id := 7
    email := "d@e.f"
    isActive := true
    deletedAt := none
    roles := []
    directPermissions := [] }

/-- Concrete instantiation of the C6 theorem: the id placeholder
renders as the number 7. -/
theorem digit_renders_coerce_witness :
    renderLeaf demoUser7 (.str "\x7b\x7bid\x7d\x7d") = .num 7 :=
  (digit_renders_coerce demoUser7 "\x7b\x7bid\x7d\x7d").2.2 rfl

/-- Claim C7: a simple field-value pair matches exactly when the
resource attribute equals the value, a negated-equality pair exactly
when it differs, every field of a condition map must match, and the
authorId negated-equality example behaves accordingly. -/
theorem condition_match_semantics :
    (∀ (c : Cond) (attrs : List (String × Leaf)),
        condMatches c attrs = true ↔ ∀ p ∈ c, opMatches attrs p.1 p.2 = true)
    ∧ (∀ (attrs : List (String × Leaf)) (f : String) (v : Leaf),
        opMatches attrs f (.eq v) = true ↔ attrLookup attrs f = some v)
    ∧ (∀ (attrs : List (String × Leaf)) (f : String) (v : Leaf),
        opMatches attrs f (.ne v) = true ↔ ¬ attrLookup attrs f = some v)
    ∧ condMatches [("authorId", .ne (.num 7))] [("authorId", .num 7)] = false
    ∧ condMatches [("authorId", .ne (.num 7))] [("authorId", .num 9)] = true := by
  refine ⟨?_, ?_, ?_, by decide, by decide⟩
  · intro c attrs
    unfold condMatches
    exact List.all_eq_true
  · intro attrs f v
    unfold opMatches
    exact decide_eq_true_iff
  · intro attrs f v
    unfold opMatches
    exact decide_eq_true_iff

/-- Concrete instantiation of the C7 theorem on the negated-equality
example. -/
theorem condition_match_semantics_witness :
    condMatches [("authorId", .ne (.num 7))] [("authorId", .num 7)] = false :=
  condition_match_semantics.2.2.2.1

/-- Claim C8: reasonFor returns the reason of the last matching deny
rule, if any; for a user whose role grants delete on Post
unconditionally and who carries an unconditional direct revoke with
reason "sanctioned", deleting any Post instance is denied and
reasonFor returns "sanctioned". -/
theorem reasonFor_last_matching_deny :
    (∀ (rules : List Rule) (a : Action) (s : Subject) (msg : String),
        reasonFor rules a s = some msg ↔
          ∃ l₁ r l₂, rules = l₁ ++ r :: l₂ ∧
            (ruleMatches r a s && r.inverted) = true ∧
            r.reason = some msg ∧
            ∀ x ∈ l₂, (ruleMatches x a s && x.inverted) = false)
    ∧ (∀ attrs, can (createAbility (some sanctionedUser)) Action.delete
        (Subject.inst "Post" attrs) = false)
    ∧ (∀ attrs, reasonFor (createAbility (some sanctionedUser)) Action.delete
        (Subject.inst "Post" attrs) = some "sanctioned") :=
  ⟨reasonFor_eq_some_iff, fun _ => rfl, fun _ => rfl⟩

/-- Concrete instantiation of the C8 theorem on one Post instance. -/
theorem reasonFor_last_matching_deny_witness :
    reasonFor (createAbility (some sanctionedUser)) Action.delete
      (Subject.inst "Post" [("authorId", Leaf.num 2)]) = some "sanctioned" :=
  reasonFor_last_matching_deny.2.2 [("authorId", Leaf.num 2)]

/-- Claim C9: building an ability depends only on the graph and the
rendered attributes of the acting user: two users equal on id, email, role
assignments and direct claims compile to the same rule list, and every
query evaluates identically on both abilities. -/
theorem build_deterministic (u₁ u₂ : User) (hid : u₁.id = u₂.id)
    (hem : u₁.email = u₂.email) (hrs : u₁.roles = u₂.roles)
    (hdp : u₁.directPermissions = u₂.directPermissions) :
    createAbility (some u₁) = createAbility (some u₂)
    ∧ (∀ (a : Action) (s : Subject),
        can (createAbility (some u₁)) a s = can (createAbility (some u₂)) a s
        ∧ cannot (createAbility (some u₁)) a s
            = cannot (createAbility (some u₂)) a s
        ∧ reasonFor (createAbility (some u₁)) a s
            = reasonFor (createAbility (some u₂)) a s) := by
  have hctx : u₁.ctx = u₂.ctx := by
    unfold User.ctx
    rw [hid, hem]
  have hleaf : ∀ v, renderLeaf u₁ v = renderLeaf u₂ v := by
    intro v
    cases v with
    | str s =>
        rw [renderLeaf_str, renderLeaf_str, hctx]
    | num n => rfl
    | bool b => rfl
  have hop : ∀ o, renderOp u₁ o = renderOp u₂ o := by
    intro o
    cases o with
    | eq v =>
        show CondOp.eq (renderLeaf u₁ v) = CondOp.eq (renderLeaf u₂ v)
        rw [hleaf]
    | ne v =>
        show CondOp.ne (renderLeaf u₁ v) = CondOp.ne (renderLeaf u₂ v)
        rw [hleaf]
  have hpc : ∀ c, parseConditions c u₁ = parseConditions c u₂ := by
    intro c
    cases c with
    | none => rfl
    | some cc =>
        show some (cc.map (fun p => (p.1, renderOp u₁ p.2)))
          = some (cc.map (fun p => (p.1, renderOp u₂ p.2)))
        congr 1
        apply List.map_congr_left
        intro p _
        rw [hop]
  have hallow : ∀ p, allowRuleOf u₁ p = allowRuleOf u₂ p := by
    intro p
    unfold allowRuleOf
    rw [hpc]
  have hdeny : ∀ dp, denyRuleOf u₁ dp = denyRuleOf u₂ dp := by
    intro dp
    unfold denyRuleOf
    rw [hpc]
  have hmain : createAbility (some u₁) = createAbility (some u₂) := by
    rw [createAbility_some_eq_sections, createAbility_some_eq_sections]
    have h1 : roleRules u₁ = roleRules u₂ := by
      unfold roleRules
      rw [hrs]
      congr 1
      apply List.map_congr_left
      intro ur _
      apply List.map_congr_left
      intro rp _
      rw [hallow]
    have h2 : grantRules u₁ = grantRules u₂ := by
      unfold grantRules
      rw [hdp]
      apply List.map_congr_left
      intro dp _
      rw [hallow]
    have h3 : revokeRules u₁ = revokeRules u₂ := by
      unfold revokeRules
      rw [hdp]
      apply List.map_congr_left
      intro dp _
      rw [hdeny]
    rw [h1, h2, h3]
  exact ⟨hmain, fun a s => by rw [hmain]; exact ⟨rfl, rfl, rfl⟩⟩

/-- A user with one direct grant, used to instantiate the C9 theorem. -/
def twinUserA : User :=
  { id := 4
    email := "t"
    isActive := true
    deletedAt := none
    roles := []
    directPermissions := [{ permission := { action := Action.read,
                                            subject := "Post",
                                            conditions := none },
                            inverted := false,
                            reason := none,
                            expiresAt := none }] }

/-- The same graph carried by a record differing in fields the factory
never reads. -/
def twinUserB : User :=
  { twinUserA with isActive := false, deletedAt := some 3 }

/-- Concrete instantiation of the C9 theorem: the two structurally
equal graphs answer the query identically. -/
theorem build_deterministic_witness :
    can (createAbility (some twinUserA)) Action.read (Subject.type "Post")
      = can (createAbility (some twinUserB)) Action.read (Subject.type "Post") :=
  ((build_deterministic twinUserA twinUserB rfl rfl rfl rfl).2
    Action.read (Subject.type "Post")).1

/-- Claim C10: every deny rule carried by a compiled ability has a
string reason attached, and a revoke claim whose stored reason is null
compiles to the empty-string reason, never null. -/
theorem revoke_reason_never_null (u : User) :
    (∀ r ∈ createAbility (some u), r.inverted = true → ∃ msg, r.reason = some msg)
    ∧ (∀ dp ∈ u.directPermissions, dp.inverted = true → dp.reason = none →
        (denyRuleOf u dp).reason = some "") := by
  constructor
  · intro r hr hinv
    rw [createAbility_some_eq_sections] at hr
    rcases List.mem_append.mp hr with h12 | h3
    · rcases List.mem_append.mp h12 with h1 | h2
      · exfalso
        unfold roleRules at h1
        obtain ⟨lr, hlr, hrin⟩ := List.mem_flatten.mp h1
        obtain ⟨ur, _, hmap⟩ := List.mem_map.mp hlr
        rw [← hmap] at hrin
        obtain ⟨rp, _, hrp⟩ := List.mem_map.mp hrin
        rw [← hrp] at hinv
        simp [allowRuleOf] at hinv
      · exfalso
        unfold grantRules at h2
        obtain ⟨dp, _, hdp⟩ := List.mem_map.mp h2
        rw [← hdp] at hinv
        simp [allowRuleOf] at hinv
    · unfold revokeRules at h3
      obtain ⟨dp, _, hdp⟩ := List.mem_map.mp h3
      exact ⟨dp.reason.getD "", by rw [← hdp]; rfl⟩
  · intro dp _ _ hnone
    unfold denyRuleOf
    rw [hnone]
    rfl

/-- A revoke claim carrying no reason. -/
def nullRevoke : UserPermission :=
  { permission := deletePostPerm
    inverted := true
    reason := none
    expiresAt := none }

/-- A user whose only direct claim is the reasonless revoke. -/
def nullReasonUser : User :=
  { id := 5
    email := "n"
    isActive := true
    deletedAt := none
    roles := []
    directPermissions := [nullRevoke] }

/-- Concrete instantiation of the C10 theorem: the reasonless revoke
compiles to the empty-string reason. -/
theorem revoke_reason_never_null_witness :
    (denyRuleOf nullReasonUser nullRevoke).reason = some "" :=
  (revoke_reason_never_null nullReasonUser).2 nullRevoke (by decide) rfl rfl

end AbilityEngine
